import Mathlib

/-!
Verification of the `docker-inspect2compose` translation and merge core
(`src/docker_inspect2compose/cli.py`) against its specification.

The Python program is dynamically typed over parsed JSON.  We embed JSON
values as the inductive type `Json`, Python `dict`s as ordered association
lists (Python 3.7+ dicts preserve insertion order), and fallible Python
subscripting (`d[k]` raising `KeyError`/`TypeError`) as `Except String`.
-/

namespace DockerInspect2Compose

/-- A JSON value, as produced by `json.loads` / `yaml.safe_load` in the
source.  Objects are ordered association lists, matching Python's
insertion-ordered `dict`.  (Booleans and floats never reach the code under
verification and are omitted from the model.) -/
inductive Json where
  | null
  | str (s : String)
  | int (n : Int)
  | arr (elems : List Json)
  | obj (fields : List (String × Json))

/-- First-match lookup in an ordered association list, as Python `d[k]` /
`k in d` resolve keys (dict keys are unique, so first match is the match). -/
def lookupD : List (String × Json) → String → Option Json
  | [], _ => none
  | (k, v) :: rest, key => if k = key then some v else lookupD rest key

/-- Python `d[k] = v` on a dict: replace the value in place if the key is
present (keeping its position), otherwise append the new pair at the end. -/
def setKeyD : List (String × Json) → String → Json → List (String × Json)
  | [], k, v => [(k, v)]
  | (k', v') :: rest, k, v =>
      if k' = k then (k', v) :: rest else (k', v') :: setKeyD rest k v

/-- Python `d.update(other)`: `d[k] = v` for each pair of `other` in order. -/
def updateD (d : List (String × Json)) (kvs : List (String × Json)) :
    List (String × Json) :=
  kvs.foldl (fun acc kv => setKeyD acc kv.1 kv.2) d

/-- Python subscripting `j[k]`: `KeyError` (carrying the key) on a dict
without the key, `TypeError` when the subscripted value is not a dict. -/
def Json.getKey : Json → String → Except String Json
  | .obj d, k =>
      match lookupD d k with
      | some v => .ok v
      | none => .error k
  | _, _ => .error "TypeError"

/-- Python truthiness for the values that reach the code's `if` tests. -/
def Json.truthy : Json → Bool
  | .null => false
  | .str s => decide (s ≠ "")
  | .int n => decide (n ≠ 0)
  | .arr [] => false
  | .arr (_ :: _) => true
  | .obj [] => false
  | .obj (_ :: _) => true

/-- Python `dict.get(k, default)` (only ever applied to dicts in the source). -/
def Json.dictGet (j : Json) (k : String) (dflt : Json) : Json :=
  match j with
  | .obj d => (lookupD d k).getD dflt
  | _ => dflt

/-- Formatting of a scalar inside a Python f-string.  The source only ever
formats strings (docker-inspect `HostPort`, `Source`, `Destination`); other
scalars are included for totality and containers are rejected. -/
def Json.fstr : Json → Except String String
  | .str s => .ok s
  | .int n => .ok (toString n)
  | .null => .ok "None"
  | _ => .error "TypeError"

/-- Sequential effectful map over a list, mirroring the evaluation order of a
Python list comprehension: elements in order, first raised error aborts. -/
def mapE (f : α → Except String β) : List α → Except String (List β)
  | [] => .ok []
  | a :: as =>
      match f a with
      | .error e => .error e
      | .ok b =>
          match mapE f as with
          | .error e => .error e
          | .ok bs => .ok (b :: bs)

/-- Sequential effectful filter, mirroring `[e for e in l if p e]` where
evaluating the predicate may raise. -/
def filterE (f : α → Except String Bool) : List α → Except String (List α)
  | [] => .ok []
  | a :: as =>
      match f a with
      | .error e => .error e
      | .ok b =>
          match filterE f as with
          | .error e => .error e
          | .ok rest => .ok (if b then a :: rest else rest)

/-- Sequential effectful fold, mirroring a Python `for` loop threading a
mutable accumulator where the body may raise. -/
def foldE (f : β → α → Except String β) : β → List α → Except String β
  | b, [] => .ok b
  | b, a :: as =>
      match f b a with
      | .error e => .error e
      | .ok b' => foldE f b' as

/-- Concatenation of a list of lists (the flat result of a nested list
comprehension). -/
def joinAll : List (List α) → List α
  | [] => []
  | l :: ls => l ++ joinAll ls

/-- Characters of `s` before the first `'/'`: Python `s.split('/')[0]`. -/
def untilSlash : List Char → List Char
  | [] => []
  | c :: cs => if c = '/' then [] else c :: untilSlash cs

/-- Python `container_port.split('/')[0]`: the protocol suffix of a port key
such as `"80/tcp"` is stripped, leaving `"80"`. -/
def stripProtocol (s : String) : String :=
  String.mk (untilSlash s.data)

/-- Characterwise prefix test. -/
def isPre : List Char → List Char → Bool
  | [], _ => true
  | _ :: _, [] => false
  | a :: as, b :: bs => if a = b then isPre as bs else false

/-- Python `s.startswith(pre)`. -/
def strStartsWith (s pre : String) : Bool :=
  isPre pre.data s.data

/-- Python `needle in hay` for strings: substring containment. -/
def strContains (hay needle : String) : Bool :=
  go needle.data hay.data
where
  go (n : List Char) : List Char → Bool
    | [] => isPre n []
    | c :: cs => isPre n (c :: cs) || go n cs

/-- Python `k in j` (`__contains__`): key test for dicts, substring test for
strings, membership for lists; `TypeError` for non-iterables. -/
def pyContains (j : Json) (k : String) : Except String Bool :=
  match j with
  | .obj d => .ok (lookupD d k).isSome
  | .str s => .ok (strContains s k)
  | .arr xs => .ok (xs.any fun x => match x with | .str t => decide (t = k) | _ => false)
  | _ => .error "TypeError"

/-! ## The extractors of `transform_to_compose` (cli.py lines 62–107) -/

/-- Decimal digits of a natural number. -/
def natStr (n : Nat) : String :=
  String.mk (Nat.toDigits 10 n)

/-- Fractional digits of `r / 10^9` (`r < 10^9`): nine digits left-padded
with zeros, trailing zeros trimmed, `"0"` when nothing remains. -/
def fracStr (r : Nat) : String :=
  let digits := Nat.toDigits 10 r
  let padded := List.replicate (9 - digits.length) '0' ++ digits
  let trimmed := (padded.reverse.dropWhile (fun c => c = '0')).reverse
  if trimmed.isEmpty then "0" else String.mk trimmed

/-- Model of Python `str(n / 1e9)` (cli.py line 95): the exact decimal string
of `n / 10^9` with Python's float display convention of at least one
fractional digit.  The source divides in binary floating point; its shortest
round-trip display coincides with this exact decimal for every quotient whose
decimal expansion fits in double precision (all realistic `NanoCpus` values,
e.g. `1500000000 ↦ "1.5"`). -/
def cpuStr (n : Int) : String :=
  (if n < 0 then "-" else "")
    ++ natStr (n.natAbs / 1000000000) ++ "." ++ fracStr (n.natAbs % 1000000000)

/-- `get_ports` (cli.py lines 62–69): one `"hostPort:containerPort"` string
per host binding of each published container port, `None`-valued ports
contributing nothing, protocol suffix stripped from the container port. -/
def get_ports (inspect_data : Json) : Except String (List String) := do
  let ns ← inspect_data.getKey "NetworkSettings"
  let ports ← ns.getKey "Ports"
  match ports with
  | .obj items =>
      let chunks ← mapE (fun kv =>
        match kv.2 with
        | .null => .ok []
        | .arr host_ports =>
            mapE (fun host_port => do
              let hp ← host_port.getKey "HostPort"
              let s ← hp.fstr
              .ok (s ++ ":" ++ stripProtocol kv.1)) host_ports
        | _ => .error "TypeError") items
      .ok (joinAll chunks)
  | _ => .error "TypeError"

/-- `get_volumes` (cli.py lines 71–75): `"source:destination"` per mount. -/
def get_volumes (inspect_data : Json) : Except String (List String) := do
  let mounts ← inspect_data.getKey "Mounts"
  match mounts with
  | .arr ms =>
      mapE (fun mount => do
        let s ← (← mount.getKey "Source").fstr
        let d ← (← mount.getKey "Destination").fstr
        .ok (s ++ ":" ++ d)) ms
  | _ => .error "TypeError"

/-- `get_environment` (cli.py lines 77–81): the raw `Config.Env` value,
filtered by `not e.startswith("PATH=")` unless `include_path_env`. -/
def get_environment (inspect_data : Json) (include_path_env : Bool) :
    Except String Json := do
  let env ← (← inspect_data.getKey "Config").getKey "Env"
  if include_path_env then
    .ok env
  else
    match env with
    | .arr es =>
        (fun l => Json.arr l) <$> filterE (fun e =>
          match e with
          | .str s => .ok (!strStartsWith s "PATH=")
          | _ => .error "AttributeError") es
    | _ => .error "TypeError"

/-- `get_restart_policy` (cli.py lines 83–90): `{condition: name}` when the
policy name is truthy, plus `max_attempts` from
`restart_policy.get("MaximumRetryCount", 0)` when the name is
`"on-failure"`; empty dict otherwise. -/
def get_restart_policy (inspect_data : Json) : Except String Json := do
  let restart_policy ← (← inspect_data.getKey "HostConfig").getKey "RestartPolicy"
  let name ← restart_policy.getKey "Name"
  if name.truthy then
    let eqOnFailure : Bool :=
      match name with
      | .str s => decide (s = "on-failure")
      | _ => false
    if eqOnFailure then
      .ok (.obj [("condition", name),
        ("max_attempts", restart_policy.dictGet "MaximumRetryCount" (.int 0))])
    else
      .ok (.obj [("condition", name)])
  else
    .ok (.obj [])

/-- `get_resources` (cli.py lines 92–98): `cpus` from a truthy `NanoCpus`
(divided by `1e9` and stringified), `memory` passed through from a truthy
`Memory`. -/
def get_resources (inspect_data : Json) : Except String Json := do
  let hc ← inspect_data.getKey "HostConfig"
  let nano ← hc.getKey "NanoCpus"
  let part1 ←
    if nano.truthy then
      match nano with
      | .int n => .ok [("cpus", Json.str (cpuStr n))]
      | _ => (.error "TypeError" : Except String _)
    else
      .ok []
  let mem ← hc.getKey "Memory"
  let part2 := if mem.truthy then [("memory", mem)] else []
  .ok (.obj (part1 ++ part2))

/-- `get_logging` (cli.py lines 100–104): `{driver, options}` when the log
driver type is truthy, empty dict otherwise. -/
def get_logging (inspect_data : Json) : Except String Json := do
  let log_config ← (← inspect_data.getKey "HostConfig").getKey "LogConfig"
  let ty ← log_config.getKey "Type"
  if ty.truthy then
    let cfg ← log_config.getKey "Config"
    .ok (.obj [("driver", ty), ("options", cfg)])
  else
    .ok (.obj [])

/-- `get_networks` (cli.py lines 106–107): the network names, i.e. the keys
of `NetworkSettings.Networks` in order. -/
def get_networks (inspect_data : Json) : Except String (List String) := do
  let nw ← (← inspect_data.getKey "NetworkSettings").getKey "Networks"
  match nw with
  | .obj d => .ok (d.map Prod.fst)
  | _ => .error "AttributeError"

/-! ## Service assembly (cli.py lines 109–139) -/

/-- `service_dict["deploy"]["resources"] = resources` after
`if "deploy" not in service_dict: service_dict["deploy"] = {}`
(cli.py lines 128–131). -/
def addResources (sd : List (String × Json)) (res : Json) : List (String × Json) :=
  if (lookupD sd "deploy").isSome then
    sd.map (fun kv => if kv.1 = "deploy" then (kv.1, setInner kv.2) else kv)
  else
    sd ++ [("deploy", .obj [("resources", res)])]
where
  setInner : Json → Json
    | .obj dd => .obj (setKeyD dd "resources" res)
    | j => j

/-- The pure tail of `transform_to_compose` (cli.py lines 115–135): the
ordered `service_dict`, built from the already-extracted values with the
source's sparse-field conditionals in source order. -/
def assembleService (service_name : String) (image : Json) (environment : Json)
    (restart_policy : Json) (resources : Json) (logging_config : Json)
    (ports volumes networks : List String) : List (String × Json) :=
  let sd : List (String × Json) :=
    [("image", image), ("container_name", .str service_name),
     ("ports", .arr (ports.map .str)), ("volumes", .arr (volumes.map .str))]
  let sd := if environment.truthy then sd ++ [("environment", environment)] else sd
  let sd :=
    if restart_policy.truthy then
      sd ++ [("deploy", .obj [("restart_policy", restart_policy)])]
    else sd
  let sd := if resources.truthy then addResources sd resources else sd
  let sd := if logging_config.truthy then sd ++ [("logging", logging_config)] else sd
  let sd := if networks.isEmpty then sd else sd ++ [("networks", .arr (networks.map .str))]
  sd

/-- `transform_to_compose` (cli.py lines 59–139).  The five named extractors
run first (lines 109–113), then the `OrderedDict` literal evaluates
`Config.Image`, `get_ports()` and `get_volumes()` in that order
(lines 115–121), then the sparse fields are appended; the result is wrapped
as a single-service document `{version: "3.8", services: {name: service}}`
(line 137). -/
def transform_to_compose (service_name : String) (inspect_data : Json)
    (include_path_env : Bool) : Except String Json := do
  let environment ← get_environment inspect_data include_path_env
  let restart_policy ← get_restart_policy inspect_data
  let resources ← get_resources inspect_data
  let logging_config ← get_logging inspect_data
  let networks ← get_networks inspect_data
  let image ← (← inspect_data.getKey "Config").getKey "Image"
  let ports ← get_ports inspect_data
  let volumes ← get_volumes inspect_data
  .ok (.obj [("version", .str "3.8"),
    ("services", .obj [(service_name,
      .obj (assembleService service_name image environment restart_policy
        resources logging_config ports volumes networks))])])

/-! ## Merge and fresh-batch assembly (cli.py lines 154–163 and 202–210) -/

/-- One iteration of the `merge_compose` loop (cli.py lines 159–162):
take the first key of `new_service["services"]`, and when it is not already
in `existing_compose["services"]`, `update` the latter with the former. -/
def mergeStep (existing_compose : List (String × Json)) (new_service : Json) :
    Except String (List (String × Json)) := do
  let nsvc ← new_service.getKey "services"
  match nsvc with
  | .obj nd =>
      match nd with
      | [] => .error "IndexError"
      | (service_name, _) :: _ =>
          match lookupD existing_compose "services" with
          | some cur => do
              let mem ← pyContains cur service_name
              if mem then
                .ok existing_compose
              else
                match cur with
                | .obj c =>
                    .ok (setKeyD existing_compose "services" (.obj (updateD c nd)))
                | _ => .error "AttributeError"
          | none => .error "services"
  | _ => .error "AttributeError"

/-- `merge_compose` (cli.py lines 154–163): ensure a `services` dict exists
(appending an empty one if absent), then run the merge loop over the new
single-service documents; `TypeError` when the existing document is not a
dict (Python `"services" not in existing_compose`). -/
def merge_compose (existing_compose : Json) (new_services : List Json) :
    Except String Json :=
  match existing_compose with
  | .obj d =>
      let d :=
        if (lookupD d "services").isSome then d
        else d ++ [("services", .obj [])]
      (fun l => Json.obj l) <$> foldE mergeStep d new_services
  | _ => .error "TypeError"

/-- The fresh-batch assembly of `main` (cli.py lines 207–210): start from
`{version: "3.8", services: {}}` and `update` the services dict with each new
single-service document's services in input order (later duplicate names
overwrite earlier ones). -/
def combine_services (new_services : List Json) : Except String Json := do
  let svs ← foldE (fun acc ns => do
      let nsvc ← ns.getKey "services"
      match nsvc with
      | .obj nd => .ok (updateD acc nd)
      | _ => (.error "TypeError" : Except String _)) [] new_services
  .ok (.obj [("version", .str "3.8"), ("services", .obj svs)])

/-- `json.loads(json.dumps(...))` round-trip aside, removing a key from an
inspection record models a malformed record missing an expected section. -/
def Json.eraseKey : Json → String → Json
  | .obj d, k => .obj (removeD d k)
  | j, _ => j
where
  removeD : List (String × Json) → String → List (String × Json)
    | [], _ => []
    | (k', v) :: rest, k =>
        if k' = k then removeD rest k else (k', v) :: removeD rest k

/-! ## Well-formed inspection records

A well-formed record (spec §3) has every expected section key present; an
optional numeric quota that is "absent" is carried as JSON `null` (falsy in
Python, like `0`), and `MaximumRetryCount` — present only for `on-failure`
policies — may be genuinely missing since the source reads it with
`dict.get`. -/

/-- One `{HostPort: ...}` entry of a port's host-binding list. -/
structure HostBinding where
  hostPort : String

/-- One entry of `Mounts`. -/
structure Mount where
  source : String
  destination : String

/-- `HostConfig.RestartPolicy`. -/
structure RestartPolicyRec where
  name : String
  maximumRetryCount : Option Int

/-- `HostConfig.LogConfig`. -/
structure LogConfigRec where
  type : String
  options : List (String × String)

/-- The typed shape of a well-formed inspection record: exactly the sections
and fields `transform_to_compose` consumes (spec §3). -/
structure InspectionRecord where
  image : String
  env : List String
  ports : List (String × Option (List HostBinding))
  mounts : List Mount
  restartPolicy : RestartPolicyRec
  nanoCpus : Option Int
  memory : Option Int
  logConfig : LogConfigRec
  networks : List (String × Json)

def encOptInt : Option Int → Json
  | some n => .int n
  | none => .null

def encConfig (env : List String) (image : String) : Json :=
  .obj [("Env", .arr (env.map .str)), ("Image", .str image)]

def encRestartPolicy (rp : RestartPolicyRec) : Json :=
  .obj ([("Name", .str rp.name)] ++
    (match rp.maximumRetryCount with
     | some n => [("MaximumRetryCount", .int n)]
     | none => []))

def encLogConfig (lc : LogConfigRec) : Json :=
  .obj [("Type", .str lc.type),
        ("Config", .obj (lc.options.map fun p => (p.1, .str p.2)))]

def encHostConfig (rp : RestartPolicyRec) (nano mem : Option Int)
    (lc : LogConfigRec) : Json :=
  .obj [("RestartPolicy", encRestartPolicy rp), ("NanoCpus", encOptInt nano),
        ("Memory", encOptInt mem), ("LogConfig", encLogConfig lc)]

def encPortEntry : Option (List HostBinding) → Json
  | none => .null
  | some bs => .arr (bs.map fun b => .obj [("HostPort", .str b.hostPort)])

def encNetworkSettings (ports : List (String × Option (List HostBinding)))
    (networks : List (String × Json)) : Json :=
  .obj [("Ports", .obj (ports.map fun p => (p.1, encPortEntry p.2))),
        ("Networks", .obj networks)]

def encMounts (mounts : List Mount) : Json :=
  .arr (mounts.map fun m =>
    .obj [("Source", .str m.source), ("Destination", .str m.destination)])

/-- The JSON tree of a well-formed inspection record. -/
def encodeRecord (r : InspectionRecord) : Json :=
  .obj [("Config", encConfig r.env r.image),
        ("HostConfig", encHostConfig r.restartPolicy r.nanoCpus r.memory r.logConfig),
        ("NetworkSettings", encNetworkSettings r.ports r.networks),
        ("Mounts", encMounts r.mounts)]

/-! ## Spec-side closed forms of the extractor outputs -/

/-- The environment filtering described by the spec: identity when the flag
is set, otherwise drop the entries starting with `"PATH="`. -/
def envList (env : List String) (include_path_env : Bool) : List String :=
  if include_path_env then env
  else env.filter fun e => !strStartsWith e "PATH="

/-- Spec-side restart-policy fragment. -/
def rpSpec (rp : RestartPolicyRec) : Json :=
  if rp.name = "" then .obj []
  else
    .obj ([("condition", .str rp.name)] ++
      (if rp.name = "on-failure" then
        [("max_attempts", .int (rp.maximumRetryCount.getD 0))]
       else []))

/-- Truthiness of an optional numeric quota: present and non-zero. -/
def optTruthy : Option Int → Bool
  | some n => decide (n ≠ 0)
  | none => false

/-- Spec-side resources fragment. -/
def resSpec (nano mem : Option Int) : Json :=
  .obj ((match nano with
         | some n => if n = 0 then [] else [("cpus", Json.str (cpuStr n))]
         | none => []) ++
        (match mem with
         | some m => if m = 0 then [] else [("memory", Json.int m)]
         | none => []))

/-- Spec-side logging fragment. -/
def logSpec (lc : LogConfigRec) : Json :=
  if lc.type = "" then .obj []
  else .obj [("driver", .str lc.type),
             ("options", .obj (lc.options.map fun p => (p.1, .str p.2)))]

/-- Spec-side ports list: per container port in mapping order, one
`"hostPort:containerPort"` entry per host binding when the binding list is
non-null, nothing when it is null. -/
def portsSpec (ports : List (String × Option (List HostBinding))) : List String :=
  joinAll (ports.map fun p =>
    match p.2 with
    | none => []
    | some bs => bs.map fun b => b.hostPort ++ ":" ++ stripProtocol p.1)

/-- Spec-side volumes list. -/
def volumesSpec (mounts : List Mount) : List String :=
  mounts.map fun m => m.source ++ ":" ++ m.destination

/-- The single-service document wrapper produced by `transform_to_compose`. -/
def wrapDoc (name : String) (sd : List (String × Json)) : Json :=
  .obj [("version", .str "3.8"), ("services", .obj [(name, .obj sd)])]

/-- Modelled from the spec (§4.3): the merge policy — fold the new
`(name, definition)` pairs over the existing services map, appending a pair
only when its name is not already a key. -/
def insertFresh (svs : List (String × Json)) (batch : List (String × Json)) :
    List (String × Json) :=
  batch.foldl (fun acc p => if (lookupD acc p.1).isSome then acc else acc ++ [p]) svs

/-- A single-service document as built by `transform_to_compose`. -/
def singleServiceDoc (p : String × Json) : Json :=
  .obj [("version", .str "3.8"), ("services", .obj [p])]

/-- The portion of an environment entry before the first `'='`: its key. -/
def entryKey (e : String) : String :=
  String.mk (keyOf e.data)
where
  keyOf : List Char → List Char
    | [] => []
    | c :: cs => if c = '=' then [] else c :: keyOf cs

/-! ## Association-list lemmas -/

theorem lookupD_append (a b : List (String × Json)) (k : String) :
    lookupD (a ++ b) k =
      match lookupD a k with
      | some v => some v
      | none => lookupD b k := by
  induction a with
  | nil => simp [lookupD]
  | cons p rest ih =>
      obtain ⟨k', v'⟩ := p
      by_cases h : k' = k <;> simp [lookupD, h, ih]

theorem lookupD_append_left {a : List (String × Json)} {k : String} {v : Json}
    (h : lookupD a k = some v) (b : List (String × Json)) :
    lookupD (a ++ b) k = some v := by
  rw [lookupD_append, h]

theorem lookupD_append_right {a : List (String × Json)} {k : String}
    (h : lookupD a k = none) (b : List (String × Json)) :
    lookupD (a ++ b) k = lookupD b k := by
  rw [lookupD_append, h]

theorem setKeyD_of_lookup_eq {d : List (String × Json)} {k : String} {v : Json}
    (h : lookupD d k = some v) : setKeyD d k v = d := by
  induction d with
  | nil => simp [lookupD] at h
  | cons p rest ih =>
      obtain ⟨k', v'⟩ := p
      by_cases hk : k' = k
      · subst hk
        simp [lookupD] at h
        simp [setKeyD, h]
      · simp [lookupD, hk] at h
        simp [setKeyD, hk, ih h]

theorem setKeyD_of_lookup_none {d : List (String × Json)} {k : String}
    (h : lookupD d k = none) (v : Json) : setKeyD d k v = d ++ [(k, v)] := by
  induction d with
  | nil => simp [setKeyD]
  | cons p rest ih =>
      obtain ⟨k', v'⟩ := p
      by_cases hk : k' = k
      · subst hk; simp [lookupD] at h
      · simp [lookupD, hk] at h
        simp [setKeyD, hk, ih h]

theorem lookupD_setKeyD (d : List (String × Json)) (k : String) (v : Json)
    (k' : String) :
    lookupD (setKeyD d k v) k' = if k = k' then some v else lookupD d k' := by
  induction d with
  | nil =>
      by_cases h : k = k' <;> simp [setKeyD, lookupD, h]
  | cons p rest ih =>
      obtain ⟨k₀, v₀⟩ := p
      by_cases h0 : k₀ = k
      · subst h0
        by_cases h1 : k₀ = k' <;> simp [setKeyD, lookupD, h1]
      · by_cases h1 : k₀ = k'
        · subst h1
          have : ¬ k = k₀ := fun hh => h0 hh.symm
          simp [setKeyD, lookupD, h0, this]
        · simp [setKeyD, lookupD, h0, h1, ih]

theorem setKeyD_setKeyD (d : List (String × Json)) (k : String) (v w : Json) :
    setKeyD (setKeyD d k v) k w = setKeyD d k w := by
  induction d with
  | nil => simp [setKeyD]
  | cons p rest ih =>
      obtain ⟨k₀, v₀⟩ := p
      by_cases h : k₀ = k <;> simp [setKeyD, h, ih]

theorem updateD_single (d : List (String × Json)) (p : String × Json) :
    updateD d [p] = setKeyD d p.1 p.2 := rfl

/-! ## Effectful-combinator lemmas -/

theorem mapE_map {α β γ} (f : β → Except String γ) (g : α → β) (l : List α) :
    mapE f (l.map g) = mapE (fun a => f (g a)) l := by
  induction l with
  | nil => rfl
  | cons a as ih => simp [mapE, ih]

theorem mapE_ok {α β} {f : α → Except String β} {h : α → β} {l : List α}
    (H : ∀ a ∈ l, f a = .ok (h a)) : mapE f l = .ok (l.map h) := by
  induction l with
  | nil => rfl
  | cons a as ih =>
      have ha := H a (by simp)
      have hrest : mapE f as = .ok (as.map h) := ih fun x hx => H x (by simp [hx])
      simp [mapE, ha, hrest]

theorem filterE_map_str (g : String → Bool) (msg : String) (l : List String) :
    filterE (fun e =>
      match e with
      | Json.str s => .ok (g s)
      | _ => .error msg) (l.map Json.str) = .ok ((l.filter g).map Json.str) := by
  induction l with
  | nil => rfl
  | cons a as ih =>
      by_cases hg : g a <;> simp [filterE, List.filter, ih, hg]

theorem ebind_ok {α β} (a : α) (f : α → Except String β) :
    (Except.ok a >>= f) = f a := rfl

theorem ebind_err {α β} (e : String) (f : α → Except String β) :
    ((Except.error e : Except String α) >>= f) = Except.error e := rfl

/-! ## Evaluation of the extractors on well-formed sections -/

theorem get_ports_of {j : Json} {ports : List (String × Option (List HostBinding))}
    {networks : List (String × Json)}
    (h : j.getKey "NetworkSettings" = .ok (encNetworkSettings ports networks)) :
    get_ports j = .ok (portsSpec ports) := by
  have hports : (encNetworkSettings ports networks).getKey "Ports"
      = .ok (.obj (ports.map fun p => (p.1, encPortEntry p.2))) := rfl
  have hmap : mapE (fun kv : String × Json =>
        match kv.2 with
        | .null => .ok []
        | .arr host_ports =>
            mapE (fun host_port => do
              let hp ← host_port.getKey "HostPort"
              let s ← hp.fstr
              .ok (s ++ ":" ++ stripProtocol kv.1)) host_ports
        | _ => .error "TypeError") (ports.map fun p => (p.1, encPortEntry p.2))
      = .ok (ports.map fun p =>
          match p.2 with
          | none => []
          | some bs => bs.map fun b => b.hostPort ++ ":" ++ stripProtocol p.1) := by
    rw [mapE_map]
    refine mapE_ok fun p _ => ?_
    obtain ⟨cp, hps⟩ := p
    cases hps with
    | none => rfl
    | some bs =>
        show mapE _ (bs.map fun b => Json.obj [("HostPort", .str b.hostPort)]) = _
        rw [mapE_map]
        exact mapE_ok fun b _ => rfl
  simp only [get_ports, h, ebind_ok, hports, hmap]
  rfl

theorem get_volumes_of {j : Json} {mounts : List Mount}
    (h : j.getKey "Mounts" = .ok (encMounts mounts)) :
    get_volumes j = .ok (volumesSpec mounts) := by
  have hmap : mapE (fun mount : Json => do
        let s ← (← mount.getKey "Source").fstr
        let d ← (← mount.getKey "Destination").fstr
        .ok (s ++ ":" ++ d))
      (mounts.map fun m => Json.obj [("Source", .str m.source), ("Destination", .str m.destination)])
      = .ok (mounts.map fun m => m.source ++ ":" ++ m.destination) := by
    rw [mapE_map]
    exact mapE_ok fun m _ => rfl
  simp only [get_volumes, h, ebind_ok, encMounts, hmap]
  rfl

theorem get_environment_of {j : Json} {env : List String} {img : String}
    (h : j.getKey "Config" = .ok (encConfig env img)) (ipe : Bool) :
    get_environment j ipe = .ok (.arr ((envList env ipe).map .str)) := by
  have henv : (encConfig env img).getKey "Env" = .ok (.arr (env.map .str)) := rfl
  cases ipe with
  | true => simp only [get_environment, h, ebind_ok, henv, envList, if_true]
  | false =>
      simp only [get_environment, h, ebind_ok, henv, envList, Bool.false_eq_true,
        if_false, filterE_map_str]
      rfl

theorem get_restart_policy_of {j : Json} {rp : RestartPolicyRec}
    {nano mem : Option Int} {lc : LogConfigRec}
    (h : j.getKey "HostConfig" = .ok (encHostConfig rp nano mem lc)) :
    get_restart_policy j = .ok (rpSpec rp) := by
  have hrp : (encHostConfig rp nano mem lc).getKey "RestartPolicy"
      = .ok (encRestartPolicy rp) := rfl
  have hname : (encRestartPolicy rp).getKey "Name" = .ok (.str rp.name) := rfl
  by_cases hn : rp.name = ""
  · simp [get_restart_policy, h, ebind_ok, hrp, hname, Json.truthy, hn, rpSpec]
  · by_cases hof : rp.name = "on-failure"
    · have hget : (encRestartPolicy rp).dictGet "MaximumRetryCount" (.int 0)
          = .int (rp.maximumRetryCount.getD 0) := by
        cases hmrc : rp.maximumRetryCount <;>
          simp [encRestartPolicy, Json.dictGet, lookupD, hmrc]
      simp [get_restart_policy, h, ebind_ok, hrp, hname, Json.truthy, hn, hof,
        hget, rpSpec]
    · simp [get_restart_policy, h, ebind_ok, hrp, hname, Json.truthy, hn, hof, rpSpec]

theorem get_resources_of {j : Json} {rp : RestartPolicyRec}
    {nano mem : Option Int} {lc : LogConfigRec}
    (h : j.getKey "HostConfig" = .ok (encHostConfig rp nano mem lc)) :
    get_resources j = .ok (resSpec nano mem) := by
  have hn : (encHostConfig rp nano mem lc).getKey "NanoCpus" = .ok (encOptInt nano) := rfl
  have hm : (encHostConfig rp nano mem lc).getKey "Memory" = .ok (encOptInt mem) := rfl
  cases nano with
  | none =>
      cases mem with
      | none => simp [get_resources, h, ebind_ok, hn, hm, encOptInt, Json.truthy, resSpec]
      | some m =>
          rcases eq_or_ne m 0 with rfl | hm0
          · simp [get_resources, h, ebind_ok, hn, hm, encOptInt, Json.truthy, resSpec]
          · simp [get_resources, h, ebind_ok, hn, hm, encOptInt, Json.truthy, resSpec, hm0]
  | some n =>
      rcases eq_or_ne n 0 with rfl | hn0
      · cases mem with
        | none => simp [get_resources, h, ebind_ok, hn, hm, encOptInt, Json.truthy, resSpec]
        | some m =>
            rcases eq_or_ne m 0 with rfl | hm0
            · simp [get_resources, h, ebind_ok, hn, hm, encOptInt, Json.truthy, resSpec]
            · simp [get_resources, h, ebind_ok, hn, hm, encOptInt, Json.truthy, resSpec, hm0]
      · cases mem with
        | none => simp [get_resources, h, ebind_ok, hn, hm, encOptInt, Json.truthy, resSpec, hn0]
        | some m =>
            rcases eq_or_ne m 0 with rfl | hm0
            · simp [get_resources, h, ebind_ok, hn, hm, encOptInt, Json.truthy, resSpec, hn0]
            · simp [get_resources, h, ebind_ok, hn, hm, encOptInt, Json.truthy, resSpec, hn0, hm0]

theorem get_logging_of {j : Json} {rp : RestartPolicyRec}
    {nano mem : Option Int} {lc : LogConfigRec}
    (h : j.getKey "HostConfig" = .ok (encHostConfig rp nano mem lc)) :
    get_logging j = .ok (logSpec lc) := by
  have hlc : (encHostConfig rp nano mem lc).getKey "LogConfig" = .ok (encLogConfig lc) := rfl
  have hty : (encLogConfig lc).getKey "Type" = .ok (.str lc.type) := rfl
  have hcfg : (encLogConfig lc).getKey "Config"
      = .ok (.obj (lc.options.map fun p => (p.1, .str p.2))) := rfl
  by_cases ht : lc.type = "" <;>
    simp [get_logging, h, ebind_ok, hlc, hty, hcfg, Json.truthy, logSpec, ht]

theorem get_networks_of {j : Json} {ports : List (String × Option (List HostBinding))}
    {networks : List (String × Json)}
    (h : j.getKey "NetworkSettings" = .ok (encNetworkSettings ports networks)) :
    get_networks j = .ok (networks.map Prod.fst) := by
  simp only [get_networks, h, ebind_ok]
  rfl

/-! ## Evaluation of `transform_to_compose` on well-formed records -/

theorem transform_encode (r : InspectionRecord) (name : String) (ipe : Bool) :
    transform_to_compose name (encodeRecord r) ipe =
      .ok (wrapDoc name (assembleService name (.str r.image)
        (.arr ((envList r.env ipe).map .str)) (rpSpec r.restartPolicy)
        (resSpec r.nanoCpus r.memory) (logSpec r.logConfig)
        (portsSpec r.ports) (volumesSpec r.mounts) (r.networks.map Prod.fst))) := by
  have hC : (encodeRecord r).getKey "Config" = .ok (encConfig r.env r.image) := rfl
  have hHC : (encodeRecord r).getKey "HostConfig"
      = .ok (encHostConfig r.restartPolicy r.nanoCpus r.memory r.logConfig) := rfl
  have hNS : (encodeRecord r).getKey "NetworkSettings"
      = .ok (encNetworkSettings r.ports r.networks) := rfl
  have hM : (encodeRecord r).getKey "Mounts" = .ok (encMounts r.mounts) := rfl
  have hImg : (encConfig r.env r.image).getKey "Image" = .ok (.str r.image) := rfl
  simp only [transform_to_compose, get_environment_of hC, get_restart_policy_of hHC,
    get_resources_of hHC, get_logging_of hHC, get_networks_of hNS, hC, hImg,
    get_ports_of hNS, get_volumes_of hM, ebind_ok, wrapDoc]

/-- Truthiness of the spec-side fragments, at record level. -/
theorem truthy_arr_map_str (l : List String) :
    (Json.arr (l.map .str)).truthy = !l.isEmpty := by
  cases l <;> rfl

theorem truthy_rpSpec (rp : RestartPolicyRec) :
    (rpSpec rp).truthy = decide (rp.name ≠ "") := by
  by_cases h : rp.name = "" <;> simp [rpSpec, h, Json.truthy]

theorem truthy_resSpec (nano mem : Option Int) :
    (resSpec nano mem).truthy = (optTruthy nano || optTruthy mem) := by
  cases nano with
  | none =>
      cases mem with
      | none => rfl
      | some m =>
          rcases eq_or_ne m 0 with rfl | hm
          · simp [resSpec, optTruthy, Json.truthy]
          · simp [resSpec, optTruthy, Json.truthy, hm]
  | some n =>
      rcases eq_or_ne n 0 with rfl | hn
      · cases mem with
        | none => rfl
        | some m =>
            rcases eq_or_ne m 0 with rfl | hm
            · simp [resSpec, optTruthy, Json.truthy]
            · simp [resSpec, optTruthy, Json.truthy, hm]
      · cases mem with
        | none => simp [resSpec, optTruthy, Json.truthy, hn]
        | some m =>
            rcases eq_or_ne m 0 with rfl | hm
            · simp [resSpec, optTruthy, Json.truthy, hn]
            · simp [resSpec, optTruthy, Json.truthy, hn, hm]

theorem truthy_logSpec (lc : LogConfigRec) :
    (logSpec lc).truthy = decide (lc.type ≠ "") := by
  by_cases h : lc.type = "" <;> simp [logSpec, h, Json.truthy]

/-- Key order of the assembled `service_dict`. -/
theorem assembleService_keys (name : String) (image environment restart_policy
    resources logging_config : Json) (ports volumes networks : List String) :
    (assembleService name image environment restart_policy resources
        logging_config ports volumes networks).map Prod.fst =
      ["image", "container_name", "ports", "volumes"]
        ++ (if environment.truthy then ["environment"] else [])
        ++ (if restart_policy.truthy || resources.truthy then ["deploy"] else [])
        ++ (if logging_config.truthy then ["logging"] else [])
        ++ (if networks.isEmpty then [] else ["networks"]) := by
  by_cases he : environment.truthy <;> by_cases hr : restart_policy.truthy <;>
    by_cases hs : resources.truthy <;> by_cases hl : logging_config.truthy <;>
    by_cases hn : networks.isEmpty <;>
    simp [assembleService, addResources, he, hr, hs, hl, hn, lookupD, setKeyD]

/-- The `deploy` entry of the assembled `service_dict`: present exactly when
the restart-policy or resources fragment is non-empty, holding the non-empty
fragments in `restart_policy`-then-`resources` order. -/
theorem assembleService_deploy (name : String) (image environment restart_policy
    resources logging_config : Json) (ports volumes networks : List String) :
    lookupD (assembleService name image environment restart_policy resources
        logging_config ports volumes networks) "deploy" =
      (if restart_policy.truthy || resources.truthy then
        some (.obj
          ((if restart_policy.truthy then [("restart_policy", restart_policy)] else [])
            ++ (if resources.truthy then [("resources", resources)] else [])))
       else none) := by
  by_cases he : environment.truthy <;> by_cases hr : restart_policy.truthy <;>
    by_cases hs : resources.truthy <;> by_cases hl : logging_config.truthy <;>
    by_cases hn : networks.isEmpty <;>
    simp [assembleService, addResources, addResources.setInner, he, hr, hs, hl, hn,
      lookupD, setKeyD, lookupD_append]

/-! ## Merge-loop evaluation -/

theorem insertFresh_cons (svs : List (String × Json)) (p : String × Json)
    (rest : List (String × Json)) :
    insertFresh svs (p :: rest) =
      insertFresh (if (lookupD svs p.1).isSome then svs else svs ++ [p]) rest := rfl

theorem foldE_mergeStep (batch : List (String × Json)) :
    ∀ (d svs : List (String × Json)), lookupD d "services" = some (.obj svs) →
      foldE mergeStep d (batch.map singleServiceDoc) =
        .ok (setKeyD d "services" (.obj (insertFresh svs batch))) := by
  induction batch with
  | nil =>
      intro d svs h
      simp [foldE, insertFresh, setKeyD_of_lookup_eq h]
  | cons p rest ih =>
      intro d svs h
      have h1 : (singleServiceDoc p).getKey "services" = .ok (.obj [p]) := rfl
      have hstep : mergeStep d (singleServiceDoc p) =
          .ok (if (lookupD svs p.1).isSome then d
               else setKeyD d "services" (.obj (updateD svs [p]))) := by
        by_cases hp : (lookupD svs p.1).isSome <;>
          simp [mergeStep, h1, ebind_ok, h, pyContains, hp]
      rw [List.map_cons]
      by_cases hp : (lookupD svs p.1).isSome
      · have : foldE mergeStep d (singleServiceDoc p :: rest.map singleServiceDoc) =
            foldE mergeStep d (rest.map singleServiceDoc) := by
          simp [foldE, hstep, hp]
        rw [this, ih d svs h, insertFresh_cons, if_pos hp]
      · have hnone : lookupD svs p.1 = none := Option.not_isSome_iff_eq_none.mp hp
        have hupd : updateD svs [p] = svs ++ [p] := by
          rw [updateD_single, setKeyD_of_lookup_none hnone]
        have hstep' : mergeStep d (singleServiceDoc p) =
            .ok (setKeyD d "services" (.obj (svs ++ [p]))) := by
          rw [hstep, if_neg hp, hupd]
        have h' : lookupD (setKeyD d "services" (.obj (svs ++ [p]))) "services"
            = some (.obj (svs ++ [p])) := by
          simp [lookupD_setKeyD]
        have : foldE mergeStep d (singleServiceDoc p :: rest.map singleServiceDoc) =
            foldE mergeStep (setKeyD d "services" (.obj (svs ++ [p])))
              (rest.map singleServiceDoc) := by
          simp [foldE, hstep']
        rw [this, ih _ _ h', setKeyD_setKeyD, insertFresh_cons, if_neg hp]

theorem insertFresh_preserves (batch : List (String × Json)) :
    ∀ (svs : List (String × Json)) (k : String), (lookupD svs k).isSome →
      lookupD (insertFresh svs batch) k = lookupD svs k := by
  induction batch with
  | nil => intro svs k _; rfl
  | cons p rest ih =>
      intro svs k hk
      rw [insertFresh_cons]
      by_cases hp : (lookupD svs p.1).isSome
      · rw [if_pos hp, ih svs k hk]
      · rw [if_neg hp]
        obtain ⟨v, hv⟩ := Option.isSome_iff_exists.mp hk
        have happ : lookupD (svs ++ [p]) k = lookupD svs k := by
          rw [lookupD_append, hv]
        rw [ih (svs ++ [p]) k (by rw [happ]; exact hk), happ]

theorem insertFresh_not_mentioned (batch : List (String × Json)) :
    ∀ (svs : List (String × Json)) (k : String), lookupD svs k = none →
      (∀ q ∈ batch, q.1 ≠ k) → lookupD (insertFresh svs batch) k = none := by
  induction batch with
  | nil => intro svs k hk _; exact hk
  | cons p rest ih =>
      intro svs k hk hq
      rw [insertFresh_cons]
      by_cases hp : (lookupD svs p.1).isSome
      · rw [if_pos hp]
        exact ih svs k hk fun q hmem => hq q (by simp [hmem])
      · rw [if_neg hp]
        have happ : lookupD (svs ++ [p]) k = none := by
          rw [lookupD_append, hk]
          have : ¬ p.1 = k := hq p (by simp)
          simp [lookupD, this]
        exact ih (svs ++ [p]) k happ fun q hmem => hq q (by simp [hmem])

theorem insertFresh_inserts (pre : List (String × Json)) (p : String × Json)
    (post : List (String × Json)) (svs : List (String × Json))
    (hfresh : lookupD svs p.1 = none) (hpre : ∀ q ∈ pre, q.1 ≠ p.1) :
    lookupD (insertFresh svs (pre ++ p :: post)) p.1 = some p.2 := by
  have hsplit : insertFresh svs (pre ++ p :: post) =
      insertFresh (insertFresh svs pre) (p :: post) := by
    simp [insertFresh, List.foldl_append]
  rw [hsplit]
  have ha : lookupD (insertFresh svs pre) p.1 = none :=
    insertFresh_not_mentioned pre svs p.1 hfresh hpre
  rw [insertFresh_cons, if_neg (by simp [ha])]
  have happ : lookupD (insertFresh svs pre ++ [p]) p.1 = some p.2 := by
    rw [lookupD_append, ha]
    simp [lookupD]
  rw [insertFresh_preserves post _ p.1 (by simp [happ]), happ]

/-! ## Fresh-batch loop evaluation -/

/-- Modelled from the spec (§4.4): fresh-batch assembly inserts every new
`(name, definition)` pair in order with Python `dict` overwrite semantics, so
a later duplicate name replaces the earlier definition. -/
def overwriteAll (svs : List (String × Json)) (batch : List (String × Json)) :
    List (String × Json) :=
  batch.foldl (fun acc p => setKeyD acc p.1 p.2) svs

theorem foldE_combineStep (batch : List (String × Json)) :
    ∀ acc : List (String × Json),
      foldE (fun acc ns => do
          let nsvc ← ns.getKey "services"
          match nsvc with
          | .obj nd => .ok (updateD acc nd)
          | _ => (.error "TypeError" : Except String _)) acc
        (batch.map singleServiceDoc) = .ok (overwriteAll acc batch) := by
  induction batch with
  | nil => intro acc; rfl
  | cons p rest ih =>
      intro acc
      have h1 : (singleServiceDoc p).getKey "services" = .ok (.obj [p]) := rfl
      rw [List.map_cons]
      show foldE _ acc (singleServiceDoc p :: rest.map singleServiceDoc) = _
      have : overwriteAll acc (p :: rest) = overwriteAll (setKeyD acc p.1 p.2) rest := rfl
      rw [this, ← ih (setKeyD acc p.1 p.2)]
      simp [foldE, h1, ebind_ok, updateD_single]

theorem combine_services_eval (batch : List (String × Json)) :
    combine_services (batch.map singleServiceDoc) =
      .ok (.obj [("version", .str "3.8"), ("services", .obj (overwriteAll [] batch))]) := by
  simp only [combine_services, foldE_combineStep, ebind_ok]

theorem overwriteAll_not_mentioned (post : List (String × Json)) :
    ∀ (acc : List (String × Json)) (k : String), (∀ q ∈ post, q.1 ≠ k) →
      lookupD (overwriteAll acc post) k = lookupD acc k := by
  induction post with
  | nil => intro acc k _; rfl
  | cons q rest ih =>
      intro acc k hq
      have : overwriteAll acc (q :: rest) = overwriteAll (setKeyD acc q.1 q.2) rest := rfl
      rw [this, ih _ k fun x hx => hq x (by simp [hx]), lookupD_setKeyD,
        if_neg (hq q (by simp))]

theorem overwriteAll_last (pre : List (String × Json)) (p : String × Json)
    (post : List (String × Json)) (acc : List (String × Json))
    (hpost : ∀ q ∈ post, q.1 ≠ p.1) :
    lookupD (overwriteAll acc (pre ++ p :: post)) p.1 = some p.2 := by
  have hsplit : overwriteAll acc (pre ++ p :: post) =
      overwriteAll (setKeyD (overwriteAll acc pre) p.1 p.2) post := by
    simp [overwriteAll, List.foldl_append]
  rw [hsplit, overwriteAll_not_mentioned post _ p.1 hpost, lookupD_setKeyD, if_pos rfl]

theorem overwriteAll_isSome_mono (batch : List (String × Json)) :
    ∀ (acc : List (String × Json)) (k : String), (lookupD acc k).isSome →
      (lookupD (overwriteAll acc batch) k).isSome := by
  induction batch with
  | nil => intro acc k hk; exact hk
  | cons q rest ih =>
      intro acc k hk
      have : overwriteAll acc (q :: rest) = overwriteAll (setKeyD acc q.1 q.2) rest := rfl
      rw [this]
      refine ih _ k ?_
      rw [lookupD_setKeyD]
      by_cases hq : q.1 = k <;> simp [hq, hk]

theorem overwriteAll_mem_isSome (batch : List (String × Json)) :
    ∀ (acc : List (String × Json)) (p : String × Json), p ∈ batch →
      (lookupD (overwriteAll acc batch) p.1).isSome := by
  induction batch with
  | nil => intro acc p hp; cases hp
  | cons q rest ih =>
      intro acc p hp
      have hstep : overwriteAll acc (q :: rest) = overwriteAll (setKeyD acc q.1 q.2) rest := rfl
      rcases List.mem_cons.mp hp with rfl | hmem
      · rw [hstep]
        refine overwriteAll_isSome_mono rest _ p.1 ?_
        rw [lookupD_setKeyD, if_pos rfl]
        rfl
      · rw [hstep]
        exact ih _ p hmem

/-! ## `startswith("PATH=")` versus "key is exactly `PATH`" -/

theorem isPre_iff_append (p : List Char) :
    ∀ l : List Char, isPre p l = true ↔ ∃ t, l = p ++ t := by
  induction p with
  | nil =>
      intro l
      simp [isPre]
  | cons a as ih =>
      intro l
      cases l with
      | nil => simp [isPre]
      | cons b bs =>
          by_cases hab : a = b
          · subst hab
            rw [show isPre (a :: as) (a :: bs) = isPre as bs by simp [isPre], ih bs]
            constructor
            · rintro ⟨t, rfl⟩
              exact ⟨t, rfl⟩
            · rintro ⟨t, ht⟩
              rw [List.cons_append] at ht
              exact ⟨t, by injection ht⟩
          · rw [show isPre (a :: as) (b :: bs) = false by simp [isPre, hab]]
            constructor
            · intro hF
              exact (Bool.false_ne_true hF).elim
            · rintro ⟨t, ht⟩
              rw [List.cons_append] at ht
              injection ht with h1 _
              exact absurd h1.symm hab

theorem keyOf_append (p : List Char) (t : List Char) (hp : ∀ c ∈ p, c ≠ '=') :
    entryKey.keyOf (p ++ t) = p ++ entryKey.keyOf t := by
  induction p with
  | nil => rfl
  | cons c cs ih =>
      have hc : ¬ c = '=' := hp c (by simp)
      simp [entryKey.keyOf, hc, ih fun x hx => hp x (by simp [hx])]

theorem keyOf_split (l : List Char) :
    (∃ t, l = entryKey.keyOf l ++ '=' :: t) ∨
      (l = entryKey.keyOf l ∧ '=' ∉ l) := by
  induction l with
  | nil => right; simp [entryKey.keyOf]
  | cons c cs ih =>
      by_cases hc : c = '='
      · subst hc
        left
        exact ⟨cs, by simp [entryKey.keyOf]⟩
      · rcases ih with ⟨t, ht⟩ | ⟨heq, hmem⟩
        · left
          exact ⟨t, by simp [entryKey.keyOf, hc]; exact ht⟩
        · right
          constructor
          · simp [entryKey.keyOf, hc, ← heq]
          · simp only [List.mem_cons, not_or]
            exact ⟨fun hh => hc hh.symm, hmem⟩

theorem startsWithPATH_iff_key (e : String) (h : '=' ∈ e.data) :
    strStartsWith e "PATH=" = true ↔ entryKey e = "PATH" := by
  have hdata : ("PATH=" : String).data = ['P', 'A', 'T', 'H', '='] := rfl
  constructor
  · intro hs
    rw [strStartsWith, hdata, isPre_iff_append] at hs
    obtain ⟨t, ht⟩ := hs
    have : entryKey.keyOf e.data = ['P', 'A', 'T', 'H'] := by
      have h4 : (['P', 'A', 'T', 'H', '='] : List Char) ++ t
          = ['P', 'A', 'T', 'H'] ++ ('=' :: t) := rfl
      rw [ht, h4, keyOf_append _ _ (by decide)]
      rfl
    rw [entryKey, this]
  · intro hk
    have hkeys : entryKey.keyOf e.data = ['P', 'A', 'T', 'H'] := by
      have := congrArg String.data hk
      exact this
    rcases keyOf_split e.data with ⟨t, ht⟩ | ⟨-, hmem⟩
    · rw [strStartsWith, hdata, isPre_iff_append]
      exact ⟨t, by rw [ht, hkeys]; rfl⟩
    · exact absurd h hmem

/-! ## Claim theorems -/

/-- Sample record with the environment entries distinguishing a `PATH` key
from a `PATH=`-prefixed entry. -/
def pathEnvSample : InspectionRecord :=
  { image := "img"
    env := ["PATH", "PATH2=x", "PATH=/usr/bin"]
    ports := []
    mounts := []
    restartPolicy := ⟨"", none⟩
    nanoCpus := none
    memory := none
    logConfig := ⟨"", []⟩
    networks := [] }

/-- C2: on every well-formed inspection record, the ports extractor emits one
`"hostPort:containerPort"` string per host binding of each container port
whose binding list is non-null (protocol suffix stripped, so `"80/tcp"` bound
to `"8080"` yields `"8080:80"`), nothing for a null binding list, ordered by
the source mapping then the binding sequence — exactly `portsSpec`. -/
theorem claim_C2_ports (r : InspectionRecord) :
    get_ports (encodeRecord r) = .ok (portsSpec r.ports)
      ∧ stripProtocol "80/tcp" = "80"
      ∧ portsSpec [("80/tcp", some [⟨"8080"⟩])] = ["8080:80"]
      ∧ portsSpec [("80/tcp", none)] = [] :=
  ⟨get_ports_of rfl, rfl, rfl, rfl⟩

/-- C5: on every well-formed inspection record, the restart-policy extractor
returns `{condition: name}` for a non-empty policy name, adds `max_attempts`
(defaulting to 0 when `MaximumRetryCount` is absent) exactly when the name is
`"on-failure"`, and returns an empty dict — not an error — for an empty
name. -/
theorem claim_C5_restart_policy (r : InspectionRecord) :
    get_restart_policy (encodeRecord r) = .ok (rpSpec r.restartPolicy)
      ∧ rpSpec ⟨"on-failure", none⟩ =
          .obj [("condition", .str "on-failure"), ("max_attempts", .int 0)]
      ∧ rpSpec ⟨"", r.restartPolicy.maximumRetryCount⟩ = .obj [] :=
  ⟨get_restart_policy_of rfl, rfl, rfl⟩

/-- C9: with `include_path_env = false` the environment extractor drops
exactly the entries starting with the five characters `"PATH="`; in
particular a bare `"PATH"` entry and a `"PATH2=x"` entry are retained while
`"PATH=/usr/bin"` is dropped. -/
theorem claim_C9_path_prefix_filter (r : InspectionRecord) :
    get_environment (encodeRecord r) false =
        .ok (.arr ((r.env.filter fun e => !strStartsWith e "PATH=").map .str))
      ∧ get_environment (encodeRecord pathEnvSample) false =
          .ok (.arr [.str "PATH", .str "PATH2=x"]) :=
  ⟨@get_environment_of (encodeRecord r) r.env r.image rfl false, rfl⟩

/-- C3: on every well-formed inspection record the resources extractor
produces a `cpus` entry (the decimal string of `NanoCpus / 10^9`) exactly
when the CPU quota is present and non-zero, passes a present non-zero memory
byte count through unchanged, yields an empty dict when neither is set
(`resSpec` spells these conditions out), and `1500000000` nanocores render
as `"1.5"`; with both quotas unset the assembled service's `deploy` entry
carries no `resources` sub-field. -/
theorem claim_C3_resources (r : InspectionRecord) (name : String) (ipe : Bool) :
    get_resources (encodeRecord r) = .ok (resSpec r.nanoCpus r.memory)
      ∧ cpuStr 1500000000 = "1.5"
      ∧ get_resources (encodeRecord { r with nanoCpus := none, memory := none })
          = .ok (.obj [])
      ∧ ∃ sd, transform_to_compose name
            (encodeRecord { r with nanoCpus := none, memory := none }) ipe
            = .ok (wrapDoc name sd)
          ∧ lookupD sd "deploy" =
              (if decide (r.restartPolicy.name ≠ "") then
                some (.obj [("restart_policy", rpSpec r.restartPolicy)])
               else none) := by
  refine ⟨get_resources_of rfl, rfl,
    @get_resources_of (encodeRecord { r with nanoCpus := none, memory := none })
      r.restartPolicy none none r.logConfig rfl,
    _, transform_encode _ name ipe, ?_⟩
  rw [assembleService_deploy, truthy_rpSpec, truthy_resSpec]
  by_cases hrp : r.restartPolicy.name = "" <;> simp [hrp, optTruthy]

theorem isEmpty_map {α β} (f : α → β) (l : List α) :
    (l.map f).isEmpty = l.isEmpty := by
  cases l <;> rfl

/-- C4: on environments of well-formed `"KEY=VALUE"` entries (each entry
contains `'='`), extraction with `include_path_env = false` removes exactly
the entries whose key is exactly `PATH`, keeping the rest in order with
duplicates; with `include_path_env = true` it is the identity; and the
filtering is idempotent under either setting. -/
theorem claim_C4_path_key_filter (r : InspectionRecord) (ipe : Bool)
    (h : ∀ e ∈ r.env, '=' ∈ e.data) :
    get_environment (encodeRecord r) false =
        .ok (.arr ((r.env.filter fun e => decide (entryKey e ≠ "PATH")).map .str))
      ∧ get_environment (encodeRecord r) true = .ok (.arr (r.env.map .str))
      ∧ envList (envList r.env ipe) ipe = envList r.env ipe := by
  have hfilter : (r.env.filter fun e => !strStartsWith e "PATH=")
      = r.env.filter fun e => decide (entryKey e ≠ "PATH") := by
    apply List.filter_congr
    intro e he
    have hiff := startsWithPATH_iff_key e (h e he)
    by_cases hs : strStartsWith e "PATH=" = true
    · have hk := hiff.mp hs
      simp [hs, hk]
    · have hs' : strStartsWith e "PATH=" = false := by
        revert hs; cases strStartsWith e "PATH=" <;> simp
      have hk : entryKey e ≠ "PATH" := fun hPk => hs (hiff.mpr hPk)
      simp [hs', hk]
  refine ⟨?_, @get_environment_of (encodeRecord r) r.env r.image rfl true, ?_⟩
  · have := @get_environment_of (encodeRecord r) r.env r.image rfl false
    rw [this]
    simp only [envList, Bool.false_eq_true, if_false, hfilter]
  · cases ipe
    · simp [envList, List.filter_filter]
    · rfl

/-- C6: every assembled service definition starts with
`image, container_name, ports, volumes` in that order, followed by
`environment`, `deploy`, `logging`, `networks` exactly when each is
non-empty; `deploy` carries its `restart_policy`/`resources` sub-fields only
when non-empty and is itself present exactly when at least one of them is —
in particular no `deploy` appears when the policy name is empty and both
quotas are zero or absent. -/
theorem claim_C6_service_shape (r : InspectionRecord) (name : String) (ipe : Bool) :
    ∃ sd, transform_to_compose name (encodeRecord r) ipe = .ok (wrapDoc name sd)
      ∧ sd.map Prod.fst =
          ["image", "container_name", "ports", "volumes"]
            ++ (if (envList r.env ipe).isEmpty then [] else ["environment"])
            ++ (if decide (r.restartPolicy.name ≠ "")
                  || (optTruthy r.nanoCpus || optTruthy r.memory) then ["deploy"] else [])
            ++ (if decide (r.logConfig.type ≠ "") then ["logging"] else [])
            ++ (if r.networks.isEmpty then [] else ["networks"])
      ∧ lookupD sd "deploy" =
          (if decide (r.restartPolicy.name ≠ "")
              || (optTruthy r.nanoCpus || optTruthy r.memory) then
            some (.obj
              ((if decide (r.restartPolicy.name ≠ "") then
                  [("restart_policy", rpSpec r.restartPolicy)] else [])
                ++ (if optTruthy r.nanoCpus || optTruthy r.memory then
                      [("resources", resSpec r.nanoCpus r.memory)] else [])))
           else none) := by
  refine ⟨_, transform_encode r name ipe, ?_, ?_⟩
  · rw [assembleService_keys, truthy_arr_map_str, truthy_rpSpec, truthy_resSpec,
      truthy_logSpec, isEmpty_map]
    by_cases he : (envList r.env ipe).isEmpty <;>
      by_cases hn : r.networks.isEmpty <;> simp [he, hn]
  · rw [assembleService_deploy, truthy_rpSpec, truthy_resSpec]

/-- C8: translation of a well-formed inspection record raises no error, and
a record missing one of the expected section keys (`Config`, `HostConfig`,
`NetworkSettings`, `Mounts`) makes the whole translation surface an error
naming exactly the offending key — all-or-nothing per container, no partial
service definition. -/
theorem claim_C8_missing_field :
    (∀ (r : InspectionRecord) (name : String) (ipe : Bool),
        ∃ v, transform_to_compose name (encodeRecord r) ipe = .ok v)
      ∧ (∀ (r : InspectionRecord) (name : String) (ipe : Bool),
          transform_to_compose name ((encodeRecord r).eraseKey "Config") ipe
            = .error "Config")
      ∧ (∀ (r : InspectionRecord) (name : String) (ipe : Bool),
          transform_to_compose name ((encodeRecord r).eraseKey "HostConfig") ipe
            = .error "HostConfig")
      ∧ (∀ (r : InspectionRecord) (name : String) (ipe : Bool),
          transform_to_compose name ((encodeRecord r).eraseKey "NetworkSettings") ipe
            = .error "NetworkSettings")
      ∧ (∀ (r : InspectionRecord) (name : String) (ipe : Bool),
          transform_to_compose name ((encodeRecord r).eraseKey "Mounts") ipe
            = .error "Mounts") := by
  refine ⟨fun r name ipe => ⟨_, transform_encode r name ipe⟩, ?_, ?_, ?_, ?_⟩
  · intro r name ipe
    rfl
  · intro r name ipe
    have hC : ((encodeRecord r).eraseKey "HostConfig").getKey "Config"
        = .ok (encConfig r.env r.image) := rfl
    have hrp : get_restart_policy ((encodeRecord r).eraseKey "HostConfig")
        = .error "HostConfig" := rfl
    simp only [transform_to_compose, get_environment_of hC, ebind_ok, hrp, ebind_err]
  · intro r name ipe
    have hC : ((encodeRecord r).eraseKey "NetworkSettings").getKey "Config"
        = .ok (encConfig r.env r.image) := rfl
    have hHC : ((encodeRecord r).eraseKey "NetworkSettings").getKey "HostConfig"
        = .ok (encHostConfig r.restartPolicy r.nanoCpus r.memory r.logConfig) := rfl
    have hnet : get_networks ((encodeRecord r).eraseKey "NetworkSettings")
        = .error "NetworkSettings" := rfl
    simp only [transform_to_compose, get_environment_of hC,
      get_restart_policy_of hHC, get_resources_of hHC, get_logging_of hHC,
      ebind_ok, hnet, ebind_err]
  · intro r name ipe
    have hC : ((encodeRecord r).eraseKey "Mounts").getKey "Config"
        = .ok (encConfig r.env r.image) := rfl
    have hHC : ((encodeRecord r).eraseKey "Mounts").getKey "HostConfig"
        = .ok (encHostConfig r.restartPolicy r.nanoCpus r.memory r.logConfig) := rfl
    have hNS : ((encodeRecord r).eraseKey "Mounts").getKey "NetworkSettings"
        = .ok (encNetworkSettings r.ports r.networks) := rfl
    have hImg : (encConfig r.env r.image).getKey "Image" = .ok (.str r.image) := rfl
    have hvol : get_volumes ((encodeRecord r).eraseKey "Mounts")
        = .error "Mounts" := rfl
    simp only [transform_to_compose, get_environment_of hC,
      get_restart_policy_of hHC, get_resources_of hHC, get_logging_of hHC,
      get_networks_of hNS, hC, hImg, get_ports_of hNS, ebind_ok, hvol, ebind_err]

/-- C1: merging a batch of newly built single-service documents into an
existing document (services map possibly absent, treated as empty) inserts
exactly the new services whose names are not yet present, skips — without
error, overwrite, or field merge — every new service whose name is already
present, and leaves every pre-existing entry byte-identical. -/
theorem claim_C1_merge_policy (d svs batch : List (String × Json))
    (hs : lookupD d "services" = some (.obj svs)
        ∨ (lookupD d "services" = none ∧ svs = [])) :
    ∃ d', merge_compose (.obj d) (batch.map singleServiceDoc) = .ok (.obj d')
      ∧ lookupD d' "services" = some (.obj (insertFresh svs batch))
      ∧ (∀ k, (lookupD svs k).isSome →
          lookupD (insertFresh svs batch) k = lookupD svs k)
      ∧ (∀ pre p post, batch = pre ++ p :: post → lookupD svs p.1 = none →
          (∀ q ∈ pre, q.1 ≠ p.1) →
          lookupD (insertFresh svs batch) p.1 = some p.2) := by
  rcases hs with hs | ⟨hs, rfl⟩
  · refine ⟨setKeyD d "services" (.obj (insertFresh svs batch)), ?_, ?_,
      fun k hk => insertFresh_preserves batch svs k hk, ?_⟩
    · have hfold := foldE_mergeStep batch d svs hs
      simp only [merge_compose, hs, Option.isSome_some, if_true, hfold]
      rfl
    · rw [lookupD_setKeyD, if_pos rfl]
    · rintro pre p post rfl hfresh hpre
      exact insertFresh_inserts pre p post svs hfresh hpre
  · have h1 : lookupD (d ++ [("services", Json.obj [])]) "services"
        = some (.obj []) := by
      rw [lookupD_append, hs]
      rfl
    refine ⟨setKeyD (d ++ [("services", Json.obj [])]) "services"
        (.obj (insertFresh [] batch)), ?_, ?_,
      fun k hk => insertFresh_preserves batch [] k hk, ?_⟩
    · have hfold := foldE_mergeStep batch _ [] h1
      simp only [merge_compose, hs, Option.isSome_none, Bool.false_eq_true,
        if_false, hfold]
      rfl
    · rw [lookupD_setKeyD, if_pos rfl]
    · rintro pre p post rfl hfresh hpre
      exact insertFresh_inserts pre p post [] hfresh hpre

theorem claim_C1_witness :
    lookupD [("services", Json.obj [("web", Json.str "OLD")])] "services"
        = some (.obj [("web", Json.str "OLD")])
      ∧ (∃ d', merge_compose (.obj [("services", Json.obj [("web", Json.str "OLD")])])
            ([("web", Json.str "NEW"), ("db", Json.str "DB")].map singleServiceDoc)
            = .ok (.obj d')
          ∧ lookupD d' "services" = some (.obj (insertFresh [("web", Json.str "OLD")]
              [("web", Json.str "NEW"), ("db", Json.str "DB")]))
          ∧ (∀ k, (lookupD [("web", Json.str "OLD")] k).isSome →
              lookupD (insertFresh [("web", Json.str "OLD")]
                  [("web", Json.str "NEW"), ("db", Json.str "DB")]) k
                = lookupD [("web", Json.str "OLD")] k)
          ∧ (∀ pre p post,
              [("web", Json.str "NEW"), ("db", Json.str "DB")] = pre ++ p :: post →
              lookupD [("web", Json.str "OLD")] p.1 = none →
              (∀ q ∈ pre, q.1 ≠ p.1) →
              lookupD (insertFresh [("web", Json.str "OLD")]
                  [("web", Json.str "NEW"), ("db", Json.str "DB")]) p.1 = some p.2)) :=
  ⟨rfl, claim_C1_merge_policy _ _ _ (Or.inl rfl)⟩

/-- C7: with no existing descriptor, the program folds the new single-service
documents into a fresh `{version: "3.8", services: {}}` document in input
order with Python dict overwrite semantics, so the service present under a
duplicated name is the last one of the batch. -/
theorem claim_C7_fresh_batch (batch pre post : List (String × Json))
    (p : String × Json) (hsplit : batch = pre ++ p :: post)
    (hpost : ∀ q ∈ post, q.1 ≠ p.1) :
    combine_services (batch.map singleServiceDoc)
        = .ok (.obj [("version", .str "3.8"),
            ("services", .obj (overwriteAll [] batch))])
      ∧ lookupD (overwriteAll [] batch) p.1 = some p.2
      ∧ ∀ q ∈ batch, (lookupD (overwriteAll [] batch) q.1).isSome := by
  subst hsplit
  exact ⟨combine_services_eval _, overwriteAll_last pre p post [] hpost,
    fun q hq => overwriteAll_mem_isSome _ [] q hq⟩

theorem claim_C7_witness :
    ([("web", Json.str "V1"), ("web", Json.str "V2")]
        = [("web", Json.str "V1")] ++ ("web", Json.str "V2") :: [])
      ∧ (combine_services
            ([("web", Json.str "V1"), ("web", Json.str "V2")].map singleServiceDoc)
            = .ok (.obj [("version", .str "3.8"),
                ("services", .obj (overwriteAll []
                  [("web", Json.str "V1"), ("web", Json.str "V2")]))])
          ∧ lookupD (overwriteAll [] [("web", Json.str "V1"), ("web", Json.str "V2")])
              "web" = some (Json.str "V2")
          ∧ ∀ q ∈ [("web", Json.str "V1"), ("web", Json.str "V2")],
              (lookupD (overwriteAll []
                [("web", Json.str "V1"), ("web", Json.str "V2")]) q.1).isSome) :=
  ⟨rfl, claim_C7_fresh_batch [("web", Json.str "V1"), ("web", Json.str "V2")]
    [("web", Json.str "V1")] [] ("web", Json.str "V2") rfl
    (fun q hq => (List.not_mem_nil q hq).elim)⟩

theorem emap_ok {α β} (f : α → β) (a : α) :
    (f <$> (Except.ok a : Except String α)) = .ok (f a) := rfl

theorem foldE_mergeStep_ok (docs : List Json) :
    ∀ (d svs : List (String × Json)), lookupD d "services" = some (.obj svs) →
      (∀ doc ∈ docs, ∃ dd n v nd, doc = .obj dd
          ∧ lookupD dd "services" = some (.obj ((n, v) :: nd))) →
      ∃ d', foldE mergeStep d docs = .ok d'
        ∧ ∃ svs', lookupD d' "services" = some (.obj svs') := by
  induction docs with
  | nil =>
      intro d svs h _
      exact ⟨d, rfl, svs, h⟩
  | cons doc rest ih =>
      intro d svs h hdocs
      obtain ⟨dd, n, v, nd, rfl, hdd⟩ := hdocs doc (by simp)
      have hget : (Json.obj dd).getKey "services" = .ok (.obj ((n, v) :: nd)) := by
        simp [Json.getKey, hdd]
      by_cases hmem : (lookupD svs n).isSome
      · have hstep : mergeStep d (.obj dd) = .ok d := by
          simp [mergeStep, hget, ebind_ok, h, pyContains, hmem]
        have hfold : foldE mergeStep d (Json.obj dd :: rest)
            = foldE mergeStep d rest := by
          simp [foldE, hstep]
        rw [hfold]
        exact ih d svs h fun x hx => hdocs x (by simp [hx])
      · have hstep : mergeStep d (.obj dd)
            = .ok (setKeyD d "services" (.obj (updateD svs ((n, v) :: nd)))) := by
          simp [mergeStep, hget, ebind_ok, h, pyContains, hmem]
        have h' : lookupD (setKeyD d "services" (.obj (updateD svs ((n, v) :: nd))))
            "services" = some (.obj (updateD svs ((n, v) :: nd))) := by
          rw [lookupD_setKeyD, if_pos rfl]
        have hfold : foldE mergeStep d (Json.obj dd :: rest)
            = foldE mergeStep (setKeyD d "services"
                (.obj (updateD svs ((n, v) :: nd)))) rest := by
          simp [foldE, hstep]
        rw [hfold]
        exact ih _ _ h' fun x hx => hdocs x (by simp [hx])

/-- C10 counterexample: the claim's precondition — the existing descriptor is
a mapping and each new single-service document carries a non-empty services
mapping — is satisfied here, yet the merge raises instead of completing:
when the existing document's `services` value is itself not a mapping,
`service_name not in existing["services"]` type-errors (for an `int`) or
substring-checks and then `update` attribute-errors (for a `str`). -/
theorem claim_C10_counterexample :
    (singleServiceDoc ("web", .obj [])).getKey "services"
        = .ok (.obj [("web", Json.obj [])])
      ∧ merge_compose (.obj [("services", Json.int 5)])
          [singleServiceDoc ("web", .obj [])] = .error "TypeError"
      ∧ merge_compose (.obj [("services", Json.str "x")])
          [singleServiceDoc ("web", .obj [])] = .error "AttributeError" :=
  ⟨rfl, rfl, rfl⟩

/-- C10 (amended): when the loaded existing descriptor is a mapping **whose
`services` entry, if present, is itself a mapping**, and every new document
is a mapping with a non-empty services mapping, the merge completes without
error and its result contains a services mapping; a non-mapping existing
descriptor (e.g. `null` from an empty file) is rejected with a type error
before the loop. -/
theorem claim_C10_amended (d : List (String × Json)) (docs : List Json)
    (hsvc : lookupD d "services" = none
        ∨ ∃ svs, lookupD d "services" = some (.obj svs))
    (hdocs : ∀ doc ∈ docs, ∃ dd n v nd, doc = .obj dd
        ∧ lookupD dd "services" = some (.obj ((n, v) :: nd))) :
    (∃ d', merge_compose (.obj d) docs = .ok (.obj d')
        ∧ ∃ svs', lookupD d' "services" = some (.obj svs'))
      ∧ merge_compose .null docs = .error "TypeError" := by
  refine ⟨?_, rfl⟩
  rcases hsvc with hnone | ⟨svs, hsome⟩
  · have h1 : lookupD (d ++ [("services", Json.obj [])]) "services"
        = some (.obj []) := by
      rw [lookupD_append, hnone]
      rfl
    obtain ⟨d', hd', hsvs'⟩ := foldE_mergeStep_ok docs _ [] h1 hdocs
    refine ⟨d', ?_, hsvs'⟩
    simp only [merge_compose, hnone, Option.isSome_none, Bool.false_eq_true,
      if_false, hd', emap_ok]
  · obtain ⟨d', hd', hsvs'⟩ := foldE_mergeStep_ok docs d svs hsome hdocs
    refine ⟨d', ?_, hsvs'⟩
    simp only [merge_compose, hsome, Option.isSome_some, if_true, hd', emap_ok]

theorem claim_C10_witness :
    (lookupD [("services", Json.obj [("web", Json.str "OLD")])] "services" = none
        ∨ ∃ svs, lookupD [("services", Json.obj [("web", Json.str "OLD")])] "services"
            = some (.obj svs))
      ∧ ((∃ d', merge_compose (.obj [("services", Json.obj [("web", Json.str "OLD")])])
              [.obj [("services", Json.obj [("db", Json.str "D"), ("x", Json.str "E")])]]
              = .ok (.obj d')
            ∧ ∃ svs', lookupD d' "services" = some (.obj svs'))
          ∧ merge_compose .null
              [.obj [("services", Json.obj [("db", Json.str "D"), ("x", Json.str "E")])]]
              = .error "TypeError") :=
  ⟨Or.inr ⟨_, rfl⟩,
    claim_C10_amended _ _ (Or.inr ⟨_, rfl⟩) (fun doc hdoc => by
      rw [List.mem_singleton] at hdoc
      subst hdoc
      exact ⟨_, "db", Json.str "D", [("x", Json.str "E")], rfl, rfl⟩)⟩

/-- Sample record whose environment entries are all well-formed
`"KEY=VALUE"` strings. -/
def kvEnvSample : InspectionRecord :=
  { image := "img"
    env := ["PATH=/usr/bin", "FOO=bar"]
    ports := []
    mounts := []
    restartPolicy := ⟨"", none⟩
    nanoCpus := none
    memory := none
    logConfig := ⟨"", []⟩
    networks := [] }

theorem claim_C4_witness :
    (∀ e ∈ kvEnvSample.env, '=' ∈ e.data)
      ∧ (get_environment (encodeRecord kvEnvSample) false =
            .ok (.arr ((kvEnvSample.env.filter
              fun e => decide (entryKey e ≠ "PATH")).map .str))
          ∧ get_environment (encodeRecord kvEnvSample) true =
              .ok (.arr (kvEnvSample.env.map .str))
          ∧ envList (envList kvEnvSample.env false) false
              = envList kvEnvSample.env false) :=
  ⟨by decide, claim_C4_path_key_filter kvEnvSample false (by decide)⟩

end DockerInspect2Compose
